import Mathlib

/-!
Verification development for the United Pharmaceuticals attendance tool.

The development shallowly embeds the reconciliation core of the application:
the attendee data model, the per-cell roster candidate filter of
`extractNamesFromExcel`, and the state handlers `runAnalysis` (its ingest
step), `rejectMatch`, `finalizeReport` and `handleBulkStatusChange` from
`src/App.tsx`.  The locale-aware collator used by
`a.name.localeCompare(b.name, 'ar')` is host provided, so every definition is
parametrised by an abstract comparator `cmp : String → String → Ordering`;
JavaScript's stable `Array.prototype.sort` on a copy is modelled by
`List.mergeSort` on the induced boolean order.
-/

namespace UnitedAttendance

/-- Status enumeration from `types` (`AttendanceStatus` in the source). -/
inductive AttendanceStatus where
  | PRESENT
  | ABSENT
  | UNEXPECTED
deriving DecidableEq, Repr

/-- Attendee record from the source: a roster `name`, a `status`, and an
optional `originalName` (the session-observed form).  A JavaScript object
built without the `originalName` property is modelled by `none`. -/
structure Attendee where
  name : String
  status : AttendanceStatus
  originalName : Option String := none
deriving DecidableEq, Repr

/-- The three-bucket classification (`ProcessingResult` in the source). -/
structure ProcessingResult where
  present : List Attendee
  absent : List Attendee
  unexpected : List Attendee
deriving DecidableEq, Repr

/-! ### String helpers modelling the JavaScript primitives

`String.prototype.trim`, `String.prototype.split(' ')` and
`isNaN(Number(val))` are modelled structurally on `List Char` so that they
compute by reduction on concrete inputs. -/

/-- Model of `String.prototype.trim`: drop whitespace from both ends. -/
def trimChars (l : List Char) : List Char :=
  ((l.dropWhile Char.isWhitespace).reverse.dropWhile Char.isWhitespace).reverse

/-- Model of `String.prototype.trim` returning a `String`. -/
def jsTrim (s : String) : String :=
  ⟨trimChars s.toList⟩

/-- Model of `String.prototype.split` with a one-character separator given by
the predicate `p`: JavaScript keeps empty segments, and an empty input yields
one empty segment. -/
def splitOnChar (p : Char → Bool) : List Char → List (List Char)
  | [] => [[]]
  | c :: rest =>
    match splitOnChar p rest with
    | [] => [[]]
    | h :: t => if p c then [] :: h :: t else (c :: h) :: t

/-- Nonempty all-decimal-digit run. -/
def isDigitsNonempty (l : List Char) : Bool :=
  !l.isEmpty && l.all Char.isDigit

/-- Hexadecimal digit. -/
def isHexDigitCh (c : Char) : Bool :=
  c.isDigit || ('a' ≤ c && c ≤ 'f') || ('A' ≤ c && c ≤ 'F')

/-- Octal digit. -/
def isOctalDigitCh (c : Char) : Bool :=
  '0' ≤ c && c ≤ '7'

/-- Binary digit. -/
def isBinaryDigitCh (c : Char) : Bool :=
  c == '0' || c == '1'

/-- ECMAScript `SignedInteger` inside an exponent part. -/
def signedIntegerLit (l : List Char) : Bool :=
  match l with
  | '+' :: r => isDigitsNonempty r
  | '-' :: r => isDigitsNonempty r
  | _ => isDigitsNonempty l

/-- ECMAScript `ExponentPart` of a decimal literal. -/
def exponentPartLit (l : List Char) : Bool :=
  match l with
  | 'e' :: r => signedIntegerLit r
  | 'E' :: r => signedIntegerLit r
  | _ => false

/-- ECMAScript `StrUnsignedDecimalLiteral`: `Infinity`, or decimal digits with
an optional fraction and optional exponent. -/
def unsignedDecimalLit (l : List Char) : Bool :=
  if l = "Infinity".toList then true
  else
    let ip := l.takeWhile Char.isDigit
    let rest := l.dropWhile Char.isDigit
    match rest with
    | [] => !ip.isEmpty
    | '.' :: rest2 =>
      let fp := rest2.takeWhile Char.isDigit
      let rest3 := rest2.dropWhile Char.isDigit
      (!ip.isEmpty || !fp.isEmpty) && (rest3.isEmpty || exponentPartLit rest3)
    | _ => !ip.isEmpty && exponentPartLit rest

/-- ECMAScript `StringNumericLiteral` body after trimming: the strings whose
`Number(...)` conversion does not produce `NaN` (the empty string converts
to `0`). -/
def strNumericLiteral (t : List Char) : Bool :=
  match t with
  | [] => true
  | '0' :: 'x' :: r => !r.isEmpty && r.all isHexDigitCh
  | '0' :: 'X' :: r => !r.isEmpty && r.all isHexDigitCh
  | '0' :: 'o' :: r => !r.isEmpty && r.all isOctalDigitCh
  | '0' :: 'O' :: r => !r.isEmpty && r.all isOctalDigitCh
  | '0' :: 'b' :: r => !r.isEmpty && r.all isBinaryDigitCh
  | '0' :: 'B' :: r => !r.isEmpty && r.all isBinaryDigitCh
  | '+' :: r => unsignedDecimalLit r
  | '-' :: r => unsignedDecimalLit r
  | _ => unsignedDecimalLit t

/-! ### Roster extractor (`extractNamesFromExcel`)

The cell filter is the condition
`val && val.length > 5 && val.split(' ').length >= 2 && isNaN(Number(val))`
applied to the trimmed cell text `val`. -/

/-- Per-cell candidate filter of `extractNamesFromExcel`, translated from the
source: the trimmed cell is nonempty (truthy), longer than 5 characters,
splits on the single-space separator into at least two segments, and is not
convertible to a number. -/
def isCandidateCell (cell : String) : Bool :=
  let val := trimChars cell.toList
  !val.isEmpty && decide (val.length > 5)
    && decide ((splitOnChar (fun c => c == ' ') val).length ≥ 2)
    && !strNumericLiteral val

/-- The candidate filter as the specification words it: condition (iii) asks
for at least two whitespace-separated tokens, where a token is a maximal
nonempty run of non-whitespace characters.  This definition follows the
specification text and is compared against `isCandidateCell`, the translation
of the source. -/
def specCandidateCell (cell : String) : Bool :=
  let val := trimChars cell.toList
  !val.isEmpty && decide (val.length > 5)
    && decide (((splitOnChar Char.isWhitespace val).filter
        (fun t => !t.isEmpty)).length ≥ 2)
    && !strNumericLiteral val

/-- Model of `Array.from(new Set(names))`: deduplicate keeping the first
occurrence of each string, in insertion order. -/
def dedupFirstAux (seen : List String) : List String → List String
  | [] => []
  | a :: rest =>
    if seen.contains a then dedupFirstAux seen rest
    else a :: dedupFirstAux (a :: seen) rest

/-- Deduplication keeping first occurrences. -/
def dedupFirst (l : List String) : List String :=
  dedupFirstAux [] l

/-- The roster extractor over the cell grid produced by the spreadsheet
reader: every cell passing the candidate filter contributes its trimmed text,
in row-major order, and the result is deduplicated as a set. -/
def extractNamesFromExcel (jsonData : List (List String)) : List String :=
  dedupFirst ((jsonData.flatten.filter isCandidateCell).map jsTrim)

/-! ### Sorting model

`sortFn` in the source copies a bucket and sorts it with the comparator
`(a, b) => a.name.localeCompare(b.name, 'ar')`.  The collator is abstracted
as `cmp`; ascending order means the comparator result is not `gt`. -/

/-- Boolean order on attendees induced by a string comparator: `a` may come
before `b` when the comparator does not put `a.name` strictly after
`b.name`. -/
def leName (cmp : String → String → Ordering) (a b : Attendee) : Bool :=
  decide (cmp a.name b.name ≠ Ordering.gt)

/-- Model of `sortFn`: a stable sort of a copy of the list by name. -/
def sortFn (cmp : String → String → Ordering) (list : List Attendee) :
    List Attendee :=
  list.mergeSort (leName cmp)

/-- A degenerate collator that considers all strings equivalent; a convenient
concrete instantiation of the abstract comparator for closed computations. -/
def cmpConst : String → String → Ordering :=
  fun _ _ => Ordering.eq

/-! ### Reconciliation operations from `src/App.tsx` -/

/-- Ingest step of `runAnalysis` (the `setRawResults` block): sort all three
buckets of the oracle's raw classification. -/
def ingest (cmp : String → String → Ordering) (res : ProcessingResult) :
    ProcessingResult :=
  { present := sortFn cmp res.present
    absent := sortFn cmp res.absent
    unexpected := sortFn cmp res.unexpected }

/-- Model of `rawResults.present.filter((_, i) => i !== index)`: keep the
elements whose position differs from `index`. -/
def filterOutIndex (l : List Attendee) (index : Int) : List Attendee :=
  ((l.enum.filter (fun p => decide ((p.1 : Int) ≠ index))).map Prod.snd)

/-- Model of `rejectMatch`.  For an in-range index the handler removes the
matched attendee from `present`, appends its roster name to `absent` and its
`originalName || ""` to `unexpected`, sorting both.  For an out-of-range
index `rawResults.present[index]` is `undefined` and reading `match.name`
throws a `TypeError` before `setRawResults` runs; the thrown error is
modelled by `none`. -/
def rejectMatch (cmp : String → String → Ordering) (res : ProcessingResult)
    (index : Int) : Option ProcessingResult :=
  if h : 0 ≤ index ∧ index.toNat < res.present.length then
    let m := res.present.get ⟨index.toNat, h.2⟩
    some { present := filterOutIndex res.present index
           absent := sortFn cmp
             (res.absent ++ [{ name := m.name, status := .ABSENT }])
           unexpected := sortFn cmp
             (res.unexpected ++
               [{ name := m.originalName.getD "", status := .UNEXPECTED }]) }
  else none

/-- The `forEach` redistribution loop of `handleBulkStatusChange`: push each
attendee into the bucket selected by the `if`/`else if`/`else` chain on its
`status` field, preserving order. -/
def distribute (l : List Attendee) : ProcessingResult :=
  { present := l.filter (fun a => a.status == .PRESENT)
    absent := l.filter
      (fun a => !(a.status == .PRESENT) && a.status == .ABSENT)
    unexpected := l.filter
      (fun a => !(a.status == .PRESENT) && !(a.status == .ABSENT)) }

/-- Model of `handleBulkStatusChange` (the staged-confirm commit): split the
concatenation of the three buckets by membership of the name in the selection
set, overwrite the status of the selected attendees with the pending status,
redistribute everything by status, sort each bucket, and clear the selection
set (the second component models `setSelectedNames(new Set())`). -/
def handleBulkStatusChange (cmp : String → String → Ordering)
    (finalResults : ProcessingResult) (selectedNames : List String)
    (pendingStatus : AttendanceStatus) : ProcessingResult × List String :=
  let all := finalResults.present ++ finalResults.absent ++
    finalResults.unexpected
  let moved := all.filter (fun a => selectedNames.contains a.name)
  let remaining := all.filter (fun a => !selectedNames.contains a.name)
  let nextResults := distribute
    (remaining ++ moved.map (fun m => { m with status := pendingStatus }))
  ({ present := sortFn cmp nextResults.present
     absent := sortFn cmp nextResults.absent
     unexpected := sortFn cmp nextResults.unexpected }, [])

/-- Bucket of a classification selected by a status. -/
def bucketOf (r : ProcessingResult) : AttendanceStatus → List Attendee
  | .PRESENT => r.present
  | .ABSENT => r.absent
  | .UNEXPECTED => r.unexpected

/-- Names stored in a bucket. -/
def namesOf (l : List Attendee) : List String :=
  l.map (fun a => a.name)

/-- All names across the three buckets, in bucket order. -/
def allNames (r : ProcessingResult) : List String :=
  namesOf r.present ++ namesOf r.absent ++ namesOf r.unexpected

/-- The disjointness invariant of the specification: no duplicate name within
a bucket and no name in two buckets, i.e. the concatenated name list has no
duplicates. -/
abbrev BucketsOk (r : ProcessingResult) : Prop :=
  (allNames r).Nodup

/-- A bucket is sorted ascending for the comparator. -/
def SortedBy (cmp : String → String → Ordering) (l : List Attendee) : Prop :=
  l.Pairwise (fun a b => leName cmp a b = true)

/-- All three buckets are sorted ascending for the comparator. -/
def SortedBuckets (cmp : String → String → Ordering)
    (r : ProcessingResult) : Prop :=
  SortedBy cmp r.present ∧ SortedBy cmp r.absent ∧ SortedBy cmp r.unexpected

/-! ### Application state around the handlers -/

/-- The slice of the React component state that the reconciliation handlers
read and write. -/
structure AppState where
  rawResults : Option ProcessingResult
  finalResults : Option ProcessingResult
  isReviewing : Bool
  selectedNames : List String
  pendingStatus : Option AttendanceStatus
  showBulkConfirm : Bool
deriving DecidableEq, Repr

/-- The state with no session, no finalized report and no selection. -/
def emptyState : AppState :=
  { rawResults := none
    finalResults := none
    isReviewing := false
    selectedNames := []
    pendingStatus := none
    showBulkConfirm := false }

/-- Model of `finalizeReport`: with no active session the guard
`if (!rawResults) return` exits silently; otherwise the raw classification is
copied into `finalResults` and the reviewing flag is cleared.  `rawResults`
itself is not written. -/
def finalizeReport (s : AppState) : AppState :=
  match s.rawResults with
  | none => s
  | some r => { s with finalResults := some r, isReviewing := false }

/-- The `rejectMatch` handler acting on the component state: with no session
the guard returns; when the core computation throws (out-of-range index,
modelled by `none`) the exception propagates before `setRawResults`, so the
state is unchanged; otherwise the new classification is stored. -/
def appRejectMatch (cmp : String → String → Ordering) (s : AppState)
    (index : Int) : AppState :=
  match s.rawResults with
  | none => s
  | some r =>
    match rejectMatch cmp r index with
    | none => s
    | some r' => { s with rawResults := some r' }

/-! ### Helper lemmas -/

/-- Sorting permutes the bucket. -/
theorem sortFn_perm (cmp : String → String → Ordering) (l : List Attendee) :
    (sortFn cmp l).Perm l :=
  List.mergeSort_perm l _

/-- Sorting an already sorted bucket returns it unchanged (stability of the
merge sort). -/
theorem sortFn_of_sorted {cmp : String → String → Ordering}
    {l : List Attendee} (h : SortedBy cmp l) : sortFn cmp l = l :=
  List.mergeSort_of_sorted h

/-- Transitivity assumption on the abstract collator, phrased on the weak
order `cmp x y ≠ gt` that ascending sorting uses. -/
def CmpTrans (cmp : String → String → Ordering) : Prop :=
  ∀ x y z : String, cmp x y ≠ Ordering.gt → cmp y z ≠ Ordering.gt →
    cmp x z ≠ Ordering.gt

/-- Totality assumption on the abstract collator. -/
def CmpTotal (cmp : String → String → Ordering) : Prop :=
  ∀ x y : String, cmp x y ≠ Ordering.gt ∨ cmp y x ≠ Ordering.gt

/-- For a transitive and total collator, sorting yields a sorted bucket. -/
theorem sortFn_sorted {cmp : String → String → Ordering}
    (ht : CmpTrans cmp) (hto : CmpTotal cmp) (l : List Attendee) :
    SortedBy cmp (sortFn cmp l) := by
  apply List.sorted_mergeSort
  · intro a b c hab hbc
    simp only [leName, decide_eq_true_eq] at hab hbc ⊢
    exact ht _ _ _ hab hbc
  · intro a b
    rcases hto a.name b.name with h | h <;> simp [leName, h]

/-- Every bucket is sorted for the degenerate collator. -/
theorem sortedBy_cmpConst (l : List Attendee) : SortedBy cmpConst l := by
  induction l with
  | nil => exact List.Pairwise.nil
  | cons a t ih =>
    exact List.Pairwise.cons (fun b _ => by simp [leName, cmpConst]) ih

/-- The degenerate collator is transitive. -/
theorem cmpConst_trans : CmpTrans cmpConst := by
  intro x y z _ _
  simp [cmpConst]

/-- The degenerate collator is total. -/
theorem cmpConst_total : CmpTotal cmpConst := by
  intro x y
  left
  simp [cmpConst]

/-- Under the degenerate collator the sort is the identity, which makes
closed computations through `sortFn` reducible. -/
theorem sortFn_cmpConst (l : List Attendee) : sortFn cmpConst l = l :=
  sortFn_of_sorted (sortedBy_cmpConst l)

/-- Index-based filtering over an enumeration starting at `n` either keeps
the whole list (index before the range) or erases the matching position. -/
theorem filterOutIndex_enumFrom (index : Int) :
    ∀ (l : List Attendee) (n : Nat),
      ((List.enumFrom n l).filter
          (fun p => decide ((p.1 : Int) ≠ index))).map Prod.snd
        = if index < (n : Int) then l else l.eraseIdx (index - n).toNat := by
  intro l
  induction l with
  | nil => intro n; simp
  | cons a t ih =>
    intro n
    have hstep : List.enumFrom n (a :: t) = (n, a) :: List.enumFrom (n + 1) t :=
      rfl
    rw [hstep, List.filter_cons]
    by_cases hn : ((n : Nat) : Int) = index
    · have hc : decide (((n : Nat) : Int) ≠ index) = false := by simp [hn]
      rw [hc, if_neg Bool.false_ne_true, ih (n + 1)]
      rw [if_pos (by push_cast; omega)]
      rw [if_neg (show ¬ index < (n : Int) by omega)]
      have h0 : (index - (n : Int)).toNat = 0 := by omega
      rw [h0, List.eraseIdx_cons_zero]
    · have hc : decide (((n : Nat) : Int) ≠ index) = true := by simp [hn]
      rw [hc, if_pos rfl, List.map_cons, ih (n + 1)]
      by_cases hb : index < (n : Int)
      · rw [if_pos (by push_cast; omega), if_pos hb]
      · rw [if_neg (by push_cast; omega), if_neg hb]
        have hcast : ((n + 1 : Nat) : Int) = (n : Int) + 1 := by push_cast; ring
        have hsucc : (index - (n : Int)).toNat
            = (index - ((n : Int) + 1)).toNat + 1 := by omega
        rw [hcast, hsucc, List.eraseIdx_cons_succ]

/-- For a nonnegative index, the index filter of `rejectMatch` erases
exactly the element at that position. -/
theorem filterOutIndex_eq_eraseIdx (l : List Attendee) (index : Int)
    (h : 0 ≤ index) : filterOutIndex l index = l.eraseIdx index.toNat := by
  have hmain := filterOutIndex_enumFrom index l 0
  have hlt : ¬ index < ((0 : Nat) : Int) := by omega
  rw [if_neg hlt] at hmain
  simpa [filterOutIndex, List.enum] using hmain

/-- Counting an element in a filtered list whose predicate rejects it gives
zero. -/
theorem count_filter_eq_zero {p : Attendee → Bool} {a : Attendee}
    {l : List Attendee} (h : p a = false) : (l.filter p).count a = 0 := by
  apply List.count_eq_zero_of_not_mem
  intro hmem
  rw [List.mem_filter] at hmem
  rw [hmem.2] at h
  exact Bool.noConfusion h

/-- The redistribution loop partitions its input: the concatenation of the
three output buckets is a permutation of the input list. -/
theorem distribute_perm (l : List Attendee) :
    ((distribute l).present ++ (distribute l).absent
      ++ (distribute l).unexpected).Perm l := by
  rw [List.perm_iff_count]
  intro a
  simp only [distribute, List.count_append]
  cases ha : a.status with
  | PRESENT =>
    have h1 : List.count a
        (l.filter (fun x => x.status == AttendanceStatus.PRESENT))
        = List.count a l := List.count_filter (by simp [ha])
    have h2 : List.count a
        (l.filter (fun x => !(x.status == AttendanceStatus.PRESENT)
          && x.status == AttendanceStatus.ABSENT)) = 0 :=
      count_filter_eq_zero (by simp [ha])
    have h3 : List.count a
        (l.filter (fun x => !(x.status == AttendanceStatus.PRESENT)
          && !(x.status == AttendanceStatus.ABSENT))) = 0 :=
      count_filter_eq_zero (by simp [ha])
    rw [h1, h2, h3]
    omega
  | ABSENT =>
    have h1 : List.count a
        (l.filter (fun x => x.status == AttendanceStatus.PRESENT)) = 0 :=
      count_filter_eq_zero (by simp [ha])
    have h2 : List.count a
        (l.filter (fun x => !(x.status == AttendanceStatus.PRESENT)
          && x.status == AttendanceStatus.ABSENT)) = List.count a l :=
      List.count_filter (by simp [ha])
    have h3 : List.count a
        (l.filter (fun x => !(x.status == AttendanceStatus.PRESENT)
          && !(x.status == AttendanceStatus.ABSENT))) = 0 :=
      count_filter_eq_zero (by simp [ha])
    rw [h1, h2, h3]
    omega
  | UNEXPECTED =>
    have h1 : List.count a
        (l.filter (fun x => x.status == AttendanceStatus.PRESENT)) = 0 :=
      count_filter_eq_zero (by simp [ha])
    have h2 : List.count a
        (l.filter (fun x => !(x.status == AttendanceStatus.PRESENT)
          && x.status == AttendanceStatus.ABSENT)) = 0 :=
      count_filter_eq_zero (by simp [ha])
    have h3 : List.count a
        (l.filter (fun x => !(x.status == AttendanceStatus.PRESENT)
          && !(x.status == AttendanceStatus.ABSENT))) = List.count a l :=
      List.count_filter (by simp [ha])
    rw [h1, h2, h3]
    omega

/-- Length of a single-character split: one more than the number of
separator occurrences. -/
theorem splitOnChar_length (p : Char → Bool) :
    ∀ l : List Char, (splitOnChar p l).length = l.countP p + 1 := by
  intro l
  induction l with
  | nil => simp [splitOnChar]
  | cons c t ih =>
    simp only [splitOnChar]
    cases hs : splitOnChar p t with
    | nil => rw [hs] at ih; simp at ih
    | cons h tl =>
      rw [hs] at ih
      by_cases hc : p c
      · simp only [hc, if_pos]
        simp only [List.length_cons] at ih ⊢
        rw [List.countP_cons]
        simp [hc, ih]
      · simp only [hc, if_neg, Bool.false_eq_true, not_false_iff]
        simp only [List.length_cons] at ih ⊢
        rw [List.countP_cons]
        simp [hc, ih]

/-- A single-character split has at least two segments exactly when a
separator occurs in the input. -/
theorem splitOnChar_two_le_iff (p : Char → Bool) (l : List Char) :
    2 ≤ (splitOnChar p l).length ↔ ∃ c ∈ l, p c = true := by
  rw [splitOnChar_length]
  rw [← List.countP_pos_iff]
  omega

/-- Names commute with sorting up to permutation. -/
theorem namesOf_sortFn_perm (cmp : String → String → Ordering)
    (l : List Attendee) : (namesOf (sortFn cmp l)).Perm (namesOf l) :=
  (sortFn_perm cmp l).map _

/-- Names commute with erasing an index. -/
theorem namesOf_eraseIdx (l : List Attendee) (k : Nat) :
    namesOf (l.eraseIdx k) = (namesOf l).eraseIdx k := by
  simp [namesOf, List.eraseIdx_eq_take_drop_succ, List.map_take,
    List.map_drop]

/-- In a duplicate-free list the element at position `k` does not survive
erasing position `k`. -/
theorem not_mem_eraseIdx_of_nodup {l : List String} (hl : l.Nodup) (k : Nat)
    (hk : k < l.length) : l.get ⟨k, hk⟩ ∉ l.eraseIdx k := by
  intro hmem
  rw [List.mem_eraseIdx_iff_getElem] at hmem
  obtain ⟨i, hi, hik, hieq⟩ := hmem
  exact hik (hl.getElem_inj_iff.mp (by simpa using hieq))

/-- Sorting a one-element bucket returns it unchanged for any collator. -/
theorem sortFn_singleton (cmp : String → String → Ordering) (a : Attendee) :
    sortFn cmp [a] = [a] :=
  sortFn_of_sorted (List.pairwise_singleton _ a)

/-- Computation rule of `rejectMatch` for an in-range index. -/
theorem rejectMatch_eq_some (cmp : String → String → Ordering)
    (res : ProcessingResult) (index : Int) (h0 : 0 ≤ index)
    (h1 : index.toNat < res.present.length) :
    rejectMatch cmp res index = some
      { present := res.present.eraseIdx index.toNat
        absent := sortFn cmp (res.absent ++
          [{ name := (res.present.get ⟨index.toNat, h1⟩).name,
             status := .ABSENT }])
        unexpected := sortFn cmp (res.unexpected ++
          [{ name := (res.present.get ⟨index.toNat, h1⟩).originalName.getD "",
             status := .UNEXPECTED }]) } := by
  unfold rejectMatch
  rw [dif_pos (And.intro h0 h1)]
  rw [filterOutIndex_eq_eraseIdx _ _ h0]

/-! ### Concrete fixtures for closed statements -/

/-- The raw classification of the specification's reject-match round trip. -/
abbrev roundTripSession : ProcessingResult :=
  { present := [{ name := "A", status := .PRESENT, originalName := some "A-zoom" }]
    absent := []
    unexpected := [] }

/-- A component state holding `roundTripSession` under review. -/
abbrev reviewState : AppState :=
  { emptyState with rawResults := some roundTripSession, isReviewing := true }

/-! ### Claim theorems -/

/-- Claim C1: for every review session and in-range index into `present`,
`rejectMatch` removes the attendee at that index from `present`, inserts an
attendee carrying its roster name with status `ABSENT` into `absent`, and
inserts an attendee carrying its `originalName` with status `UNEXPECTED`
into `unexpected`; in particular, on the session with
`present = [{name := "A", originalName := "A-zoom"}]`, rejecting index 0
yields empty `present`, `absent` holding `"A"` and `unexpected` holding
`"A-zoom"`. -/
theorem rejectMatch_reclassifies (cmp : String → String → Ordering)
    (res : ProcessingResult) (index : Int) (m : Attendee) (s : String)
    (h0 : 0 ≤ index) (h1 : index.toNat < res.present.length)
    (hm : res.present.get ⟨index.toNat, h1⟩ = m)
    (ho : m.originalName = some s) :
    (∃ res', rejectMatch cmp res index = some res'
      ∧ res'.present = res.present.eraseIdx index.toNat
      ∧ res'.absent.Perm (res.absent ++
          [{ name := m.name, status := .ABSENT }])
      ∧ res'.unexpected.Perm (res.unexpected ++
          [{ name := s, status := .UNEXPECTED }]))
    ∧ rejectMatch cmp roundTripSession 0 = some
        { present := []
          absent := [{ name := "A", status := .ABSENT }]
          unexpected := [{ name := "A-zoom", status := .UNEXPECTED }] } := by
  constructor
  · refine ⟨_, rejectMatch_eq_some cmp res index h0 h1, rfl, ?_, ?_⟩
    · rw [hm]
      exact sortFn_perm _ _
    · have hgd : (res.present.get ⟨index.toNat, h1⟩).originalName.getD "" = s := by
        rw [hm, ho]
        rfl
      rw [hgd]
      exact sortFn_perm _ _
  · rw [rejectMatch_eq_some cmp roundTripSession 0 (by omega) (by decide)]
    simp [roundTripSession, sortFn_singleton]

/-- Witness for C1: the round-trip session instantiates the hypotheses. -/
theorem rejectMatch_reclassifies_witness :
    (∃ res', rejectMatch cmpConst roundTripSession 0 = some res'
      ∧ res'.present = roundTripSession.present.eraseIdx (Int.toNat 0)
      ∧ res'.absent.Perm (roundTripSession.absent ++
          [{ name := "A", status := .ABSENT }])
      ∧ res'.unexpected.Perm (roundTripSession.unexpected ++
          [{ name := "A-zoom", status := .UNEXPECTED }]))
    ∧ rejectMatch cmpConst roundTripSession 0 = some
        { present := []
          absent := [{ name := "A", status := .ABSENT }]
          unexpected := [{ name := "A-zoom", status := .UNEXPECTED }] } :=
  rejectMatch_reclassifies cmpConst roundTripSession 0
    { name := "A", status := .PRESENT, originalName := some "A-zoom" }
    "A-zoom" (by omega) (by decide) (by decide) rfl

/-- Claim C7: for an out-of-range index (negative, or at least the length of
`present`), `rejectMatch` errors (the access throws before any state write,
modelled by `none`) and the handler leaves the component state, hence all
three buckets, unchanged. -/
theorem rejectMatch_out_of_range (cmp : String → String → Ordering)
    (st : AppState) (res : ProcessingResult) (index : Int)
    (hr : st.rawResults = some res)
    (h : index < 0 ∨ (res.present.length : Int) ≤ index) :
    rejectMatch cmp res index = none
      ∧ appRejectMatch cmp st index = st := by
  have hcond : ¬ (0 ≤ index ∧ index.toNat < res.present.length) := by omega
  have hnone : rejectMatch cmp res index = none := by
    unfold rejectMatch
    rw [dif_neg hcond]
  refine ⟨hnone, ?_⟩
  simp [appRejectMatch, hr, hnone]

/-- Witness for C7: index 5 is out of range for the one-element session. -/
theorem rejectMatch_out_of_range_witness :
    rejectMatch cmpConst roundTripSession 5 = none
      ∧ appRejectMatch cmpConst reviewState 5 = reviewState :=
  rejectMatch_out_of_range cmpConst reviewState roundTripSession 5 rfl
    (Or.inr (by decide))

/-- Claim C10: when the rejected attendee has no `originalName` (or an empty
one), `rejectMatch` still succeeds and inserts an attendee with the empty
string as name into `unexpected`, rather than skipping the insertion or
erroring. -/
theorem rejectMatch_defaults_empty_name (cmp : String → String → Ordering)
    (res : ProcessingResult) (index : Int) (m : Attendee)
    (h0 : 0 ≤ index) (h1 : index.toNat < res.present.length)
    (hm : res.present.get ⟨index.toNat, h1⟩ = m)
    (ho : m.originalName = none ∨ m.originalName = some "") :
    ∃ res', rejectMatch cmp res index = some res'
      ∧ { name := "", status := AttendanceStatus.UNEXPECTED,
          originalName := none } ∈ res'.unexpected := by
  refine ⟨_, rejectMatch_eq_some cmp res index h0 h1, ?_⟩
  have hgd : (res.present.get ⟨index.toNat, h1⟩).originalName.getD "" = "" := by
    rw [hm]
    rcases ho with h | h <;> rw [h] <;> rfl
  apply (sortFn_perm cmp _).mem_iff.mpr
  rw [hgd]
  exact List.mem_append_right _ (by simp)

/-- Witness for C10: a session whose matched attendee lacks an
`originalName`. -/
theorem rejectMatch_defaults_empty_name_witness :
    ∃ res', rejectMatch cmpConst
        { present := [{ name := "B", status := .PRESENT }]
          absent := [], unexpected := [] } 0 = some res'
      ∧ { name := "", status := AttendanceStatus.UNEXPECTED,
          originalName := none } ∈ res'.unexpected :=
  rejectMatch_defaults_empty_name cmpConst
    { present := [{ name := "B", status := .PRESENT }]
      absent := [], unexpected := [] } 0
    { name := "B", status := .PRESENT } (by omega) (by decide) (by decide)
    (Or.inl rfl)

/-- Counterexample for claim C6: finalizing the review session does not
discard it.  After `finalizeReport` on a state holding a raw session, the
`rawResults` field still holds that same session (the handler never writes
`rawResults`), refuting the claim that no raw-session state is retained
after finalization. -/
theorem finalizeReport_retains_session_cex :
    (finalizeReport reviewState).rawResults = some roundTripSession
      ∧ (finalizeReport reviewState).rawResults ≠ none := by
  exact ⟨rfl, by decide⟩

/-- Claim C6 amended: `finalizeReport` promotes the active session into the
finalized classification and ends the reviewing phase, but the raw session
is retained in `rawResults` (it is only cleared by the reset handler). -/
theorem finalizeReport_promotes_session (st : AppState)
    (r : ProcessingResult) (hr : st.rawResults = some r) :
    finalizeReport st
        = { st with finalResults := some r, isReviewing := false }
      ∧ (finalizeReport st).rawResults = some r := by
  unfold finalizeReport
  rw [hr]
  exact ⟨rfl, rfl⟩

/-- Witness for the amended C6. -/
theorem finalizeReport_promotes_session_witness :
    finalizeReport reviewState
        = { reviewState with finalResults := some roundTripSession, isReviewing := false }
      ∧ (finalizeReport reviewState).rawResults = some roundTripSession :=
  finalizeReport_promotes_session reviewState roundTripSession rfl

/-- Counterexample for claim C8: calling finalize with no active session is
not reported as an error; the guard returns and the call succeeds silently,
leaving every state field (including the absent finalized classification)
untouched. -/
theorem finalizeReport_no_session_cex :
    finalizeReport emptyState = emptyState
      ∧ (finalizeReport emptyState).finalResults = none := by
  exact ⟨rfl, rfl⟩

/-- Claim C8 amended: calling finalize with no active review session is a
silent no-op: the handler changes no state and reports nothing. -/
theorem finalizeReport_no_session_noop (st : AppState)
    (h : st.rawResults = none) : finalizeReport st = st := by
  unfold finalizeReport
  rw [h]

/-- Witness for the amended C8. -/
theorem finalizeReport_no_session_noop_witness :
    finalizeReport emptyState = emptyState :=
  finalizeReport_no_session_noop emptyState rfl

/-- Counterexample for claim C2: the cell text joined by a tab has two
whitespace-separated tokens, is longer than five characters and is not
numeric, so the specification's filter selects it; the code splits on the
single space character only and rejects it. -/
theorem rosterCandidate_whitespace_cex :
    isCandidateCell "abc\tdef" = false
      ∧ specCandidateCell "abc\tdef" = true := by
  exact ⟨by decide, by decide⟩

/-- Claim C2 amended: a cell is selected as a roster candidate iff, after
trimming, it is nonempty, longer than 5 characters, contains at least one
literal space character (equivalently, splitting on single spaces yields at
least two segments; tokens separated only by other whitespace do not count),
and is not parseable as a number.  The second conjunct ties the per-cell
filter to the extractor: a one-cell grid yields exactly the trimmed cell
when the filter selects it and nothing otherwise. -/
theorem rosterCandidate_characterisation :
    (∀ cell : String, isCandidateCell cell = true ↔
      (trimChars cell.toList ≠ [] ∧ 5 < (trimChars cell.toList).length
        ∧ ' ' ∈ trimChars cell.toList
        ∧ strNumericLiteral (trimChars cell.toList) = false))
    ∧ (∀ cell : String, extractNamesFromExcel [[cell]]
        = if isCandidateCell cell = true then [jsTrim cell] else []) := by
  constructor
  · intro cell
    unfold isCandidateCell
    simp only [Bool.and_eq_true, Bool.not_eq_true', decide_eq_true_eq,
      ge_iff_le]
    rw [splitOnChar_two_le_iff]
    constructor
    · rintro ⟨⟨⟨he, hlen⟩, hsp⟩, hnum⟩
      refine ⟨?_, hlen, ?_, hnum⟩
      · intro hnil
        rw [hnil] at he
        simp at he
      · obtain ⟨c, hc, hceq⟩ := hsp
        rw [beq_iff_eq] at hceq
        rw [← hceq]
        exact hc
    · rintro ⟨hne, hlen, hsp, hnum⟩
      refine ⟨⟨⟨?_, hlen⟩, ⟨' ', hsp, beq_self_eq_true _⟩⟩, hnum⟩
      rcases h : (trimChars cell.toList).isEmpty with _ | _
      · rfl
      · exact absurd (List.isEmpty_iff.mp h) hne
  · intro cell
    by_cases h : isCandidateCell cell
      <;> simp [h, extractNamesFromExcel, dedupFirst, dedupFirstAux]

/-- Witness for the amended C2: a two-token name is selected and extracted,
and selection agrees with the characterisation. -/
theorem rosterCandidate_characterisation_witness :
    (isCandidateCell "Ali Hassan" = true ↔
      (trimChars "Ali Hassan".toList ≠ []
        ∧ 5 < (trimChars "Ali Hassan".toList).length
        ∧ ' ' ∈ trimChars "Ali Hassan".toList
        ∧ strNumericLiteral (trimChars "Ali Hassan".toList) = false))
    ∧ extractNamesFromExcel [["Ali Hassan"]]
        = if isCandidateCell "Ali Hassan" = true
          then [jsTrim "Ali Hassan"] else [] :=
  ⟨rosterCandidate_characterisation.1 "Ali Hassan",
    rosterCandidate_characterisation.2 "Ali Hassan"⟩

/-- Claim C5: for a transitive and total collator, every mutating operation
leaves all three buckets sorted ascending by name — ingest sorts all
buckets, `rejectMatch` sorts the two insertion targets and preserves the
order of `present` (filtering a sorted list), and the bulk change sorts all
buckets — and re-sorting an already sorted bucket is a no-op. -/
theorem buckets_sorted_invariant (cmp : String → String → Ordering)
    (ht : CmpTrans cmp) (hto : CmpTotal cmp) :
    (∀ res, SortedBuckets cmp (ingest cmp res))
    ∧ (∀ res index res', SortedBy cmp res.present →
        rejectMatch cmp res index = some res' → SortedBuckets cmp res')
    ∧ (∀ fr sel target,
        SortedBuckets cmp (handleBulkStatusChange cmp fr sel target).1)
    ∧ (∀ l, SortedBy cmp l → sortFn cmp l = l) := by
  refine ⟨?_, ?_, ?_, ?_⟩
  · intro res
    exact ⟨sortFn_sorted ht hto _, sortFn_sorted ht hto _,
      sortFn_sorted ht hto _⟩
  · intro res index res' hpres hsome
    by_cases hc : 0 ≤ index ∧ index.toNat < res.present.length
    · rw [rejectMatch_eq_some cmp res index hc.1 hc.2] at hsome
      obtain rfl := Option.some.inj hsome.symm
      refine ⟨?_, sortFn_sorted ht hto _, sortFn_sorted ht hto _⟩
      exact List.Pairwise.sublist (List.eraseIdx_sublist _ _) hpres
    · unfold rejectMatch at hsome
      rw [dif_neg hc] at hsome
      exact absurd hsome (by simp)
  · intro fr sel target
    exact ⟨sortFn_sorted ht hto _, sortFn_sorted ht hto _,
      sortFn_sorted ht hto _⟩
  · intro l h
    exact sortFn_of_sorted h

/-- Witness for C5: the degenerate collator satisfies both hypotheses, and
the no-op conjunct applies to a concrete sorted bucket. -/
theorem buckets_sorted_invariant_witness :
    CmpTrans cmpConst ∧ CmpTotal cmpConst
      ∧ sortFn cmpConst roundTripSession.present
          = roundTripSession.present :=
  ⟨cmpConst_trans, cmpConst_total,
    (buckets_sorted_invariant cmpConst cmpConst_trans cmpConst_total).2.2.2
      roundTripSession.present (sortedBy_cmpConst _)⟩

/-- The three output buckets of the bulk change, concatenated, are a
permutation of the unselected attendees followed by the selected attendees
with their status overwritten. -/
theorem bulk_all_perm (cmp : String → String → Ordering)
    (fr : ProcessingResult) (sel : List String)
    (target : AttendanceStatus) :
    ((handleBulkStatusChange cmp fr sel target).1.present
      ++ (handleBulkStatusChange cmp fr sel target).1.absent
      ++ (handleBulkStatusChange cmp fr sel target).1.unexpected).Perm
      ((fr.present ++ fr.absent ++ fr.unexpected).filter
          (fun a => !sel.contains a.name)
        ++ ((fr.present ++ fr.absent ++ fr.unexpected).filter
          (fun a => sel.contains a.name)).map
            (fun m => { m with status := target })) := by
  simp only [handleBulkStatusChange]
  exact (((sortFn_perm cmp _).append (sortFn_perm cmp _)).append
    (sortFn_perm cmp _)).trans (distribute_perm _)

/-- The two filters of the bulk change partition the input length-wise. -/
theorem length_filter_partition (p : Attendee → Bool) (l : List Attendee) :
    (l.filter p).length + (l.filter (fun x => !p x)).length = l.length := by
  induction l with
  | nil => rfl
  | cons a t ih =>
    by_cases h : p a <;> simp [List.filter_cons, h] <;> omega

/-- Claim C3: confirming a staged bulk change clears the selection set,
moves every attendee whose name is selected into the bucket of the target
status with its status overwritten, leaves no selected name in any other
bucket, and re-sorts all buckets. -/
theorem bulk_moves_selected (cmp : String → String → Ordering)
    (ht : CmpTrans cmp) (hto : CmpTotal cmp) (fr : ProcessingResult)
    (sel : List String) (target : AttendanceStatus) :
    (handleBulkStatusChange cmp fr sel target).2 = []
    ∧ (∀ a, a ∈ fr.present ++ fr.absent ++ fr.unexpected →
        sel.contains a.name = true →
        { a with status := target } ∈
          bucketOf (handleBulkStatusChange cmp fr sel target).1 target)
    ∧ (∀ st, st ≠ target →
        ∀ b, b ∈ bucketOf (handleBulkStatusChange cmp fr sel target).1 st →
          sel.contains b.name = false)
    ∧ SortedBuckets cmp (handleBulkStatusChange cmp fr sel target).1 := by
  refine ⟨rfl, ?_, ?_, ?_, sortFn_sorted ht hto _, sortFn_sorted ht hto _⟩
  · intro a ha hsel
    have hmem : { a with status := target } ∈
        ((fr.present ++ fr.absent ++ fr.unexpected).filter
          (fun x => !sel.contains x.name)
        ++ ((fr.present ++ fr.absent ++ fr.unexpected).filter
          (fun x => sel.contains x.name)).map
            (fun m => { m with status := target })) :=
      List.mem_append_right _
        (List.mem_map.mpr ⟨a, List.mem_filter.mpr ⟨ha, hsel⟩, rfl⟩)
    cases target with
    | PRESENT =>
      apply (sortFn_perm cmp _).mem_iff.mpr
      exact List.mem_filter.mpr ⟨hmem, by simp⟩
    | ABSENT =>
      apply (sortFn_perm cmp _).mem_iff.mpr
      exact List.mem_filter.mpr ⟨hmem, by simp⟩
    | UNEXPECTED =>
      apply (sortFn_perm cmp _).mem_iff.mpr
      exact List.mem_filter.mpr ⟨hmem, by simp⟩
  · intro st hst b hb
    have hb' :
        b ∈ ((fr.present ++ fr.absent ++ fr.unexpected).filter
          (fun x => !sel.contains x.name)
        ++ ((fr.present ++ fr.absent ++ fr.unexpected).filter
          (fun x => sel.contains x.name)).map
            (fun m => { m with status := target }))
        ∧ (match st with
            | AttendanceStatus.PRESENT => b.status == AttendanceStatus.PRESENT
            | AttendanceStatus.ABSENT => !(b.status == AttendanceStatus.PRESENT)
                && b.status == AttendanceStatus.ABSENT
            | AttendanceStatus.UNEXPECTED =>
                !(b.status == AttendanceStatus.PRESENT)
                && !(b.status == AttendanceStatus.ABSENT)) = true := by
      cases st with
      | PRESENT => exact List.mem_filter.mp ((sortFn_perm cmp _).mem_iff.mp hb)
      | ABSENT => exact List.mem_filter.mp ((sortFn_perm cmp _).mem_iff.mp hb)
      | UNEXPECTED =>
        exact List.mem_filter.mp ((sortFn_perm cmp _).mem_iff.mp hb)
    rcases List.mem_append.mp hb'.1 with hrem | hmov
    · have := (List.mem_filter.mp hrem).2
      simpa using this
    · obtain ⟨m, _, heq⟩ := List.mem_map.mp hmov
      have hstat : b.status = target := by rw [← heq]
      have hpst := hb'.2
      exfalso
      apply hst
      cases st <;> cases target <;> simp [hstat] at hpst ⊢
  · refine sortFn_sorted ht hto _

/-- Witness for C3: moving the selected name into the absent bucket of a
concrete two-attendee classification. -/
theorem bulk_moves_selected_witness :
    CmpTrans cmpConst ∧ CmpTotal cmpConst
      ∧ (handleBulkStatusChange cmpConst roundTripSession ["A"]
          AttendanceStatus.ABSENT).2 = []
      ∧ { name := "A", status := AttendanceStatus.ABSENT,
          originalName := some "A-zoom" } ∈
          bucketOf (handleBulkStatusChange cmpConst roundTripSession ["A"]
            AttendanceStatus.ABSENT).1 AttendanceStatus.ABSENT :=
  ⟨cmpConst_trans, cmpConst_total,
    (bulk_moves_selected cmpConst cmpConst_trans cmpConst_total
      roundTripSession ["A"] AttendanceStatus.ABSENT).1,
    (bulk_moves_selected cmpConst cmpConst_trans cmpConst_total
      roundTripSession ["A"] AttendanceStatus.ABSENT).2.1
      { name := "A", status := AttendanceStatus.PRESENT,
        originalName := some "A-zoom" } (by simp [roundTripSession])
      (by decide)⟩

/-- Claim C9: the bulk change neither loses nor duplicates attendees — the
total size of the three buckets is unchanged, and every attendee whose name
is not selected occurs afterwards exactly as often as before, with name,
status and `originalName` untouched. -/
theorem bulk_preserves_attendees (cmp : String → String → Ordering)
    (fr : ProcessingResult) (sel : List String)
    (target : AttendanceStatus) :
    ((handleBulkStatusChange cmp fr sel target).1.present.length
      + (handleBulkStatusChange cmp fr sel target).1.absent.length
      + (handleBulkStatusChange cmp fr sel target).1.unexpected.length
      = fr.present.length + fr.absent.length + fr.unexpected.length)
    ∧ (∀ a : Attendee, sel.contains a.name = false →
        List.count a ((handleBulkStatusChange cmp fr sel target).1.present
          ++ (handleBulkStatusChange cmp fr sel target).1.absent
          ++ (handleBulkStatusChange cmp fr sel target).1.unexpected)
        = List.count a (fr.present ++ fr.absent ++ fr.unexpected)) := by
  have hperm := bulk_all_perm cmp fr sel target
  constructor
  · have hlen := hperm.length_eq
    have hsplit : ((fr.present ++ fr.absent ++ fr.unexpected).filter
          (fun a => sel.contains a.name)).length
        + ((fr.present ++ fr.absent ++ fr.unexpected).filter
          (fun a => !sel.contains a.name)).length
        = (fr.present ++ fr.absent ++ fr.unexpected).length :=
      length_filter_partition _ _
    simp only [List.length_append, List.length_map] at hlen hsplit ⊢
    omega
  · intro a hna
    rw [hperm.count_eq, List.count_append]
    have hz : List.count a
        (((fr.present ++ fr.absent ++ fr.unexpected).filter
          (fun x => sel.contains x.name)).map
            (fun m => { m with status := target })) = 0 := by
      apply List.count_eq_zero_of_not_mem
      intro hmem
      obtain ⟨m, hm, heq⟩ := List.mem_map.mp hmem
      have hsel : sel.contains m.name = true := (List.mem_filter.mp hm).2
      have hname : m.name = a.name := by rw [← heq]
      rw [hname, hna] at hsel
      exact Bool.noConfusion hsel
    rw [hz]
    have hcf : List.count a
        ((fr.present ++ fr.absent ++ fr.unexpected).filter
          (fun x => !sel.contains x.name))
        = List.count a (fr.present ++ fr.absent ++ fr.unexpected) :=
      List.count_filter (by simpa using hna)
    rw [hcf]
    omega

/-- Witness for C9: the unselected attendee of a concrete classification is
preserved with multiplicity. -/
theorem bulk_preserves_attendees_witness :
    List.contains ["A"]
        ({ name := "B", status := AttendanceStatus.ABSENT,
           originalName := none } : Attendee).name = false
      ∧ List.count
          ({ name := "B", status := AttendanceStatus.ABSENT,
             originalName := none } : Attendee)
          ((handleBulkStatusChange cmpConst
              { present := [], absent := [{ name := "B", status := .ABSENT }],
                unexpected := [] } ["A"] AttendanceStatus.PRESENT).1.present
            ++ (handleBulkStatusChange cmpConst
              { present := [], absent := [{ name := "B", status := .ABSENT }],
                unexpected := [] } ["A"] AttendanceStatus.PRESENT).1.absent
            ++ (handleBulkStatusChange cmpConst
              { present := [], absent := [{ name := "B", status := .ABSENT }],
                unexpected := [] } ["A"] AttendanceStatus.PRESENT).1.unexpected)
        = List.count
          ({ name := "B", status := AttendanceStatus.ABSENT,
             originalName := none } : Attendee)
          (([] : List Attendee) ++ [{ name := "B", status := .ABSENT }]
            ++ ([] : List Attendee)) :=
  ⟨by decide,
    (bulk_preserves_attendees cmpConst
      { present := [], absent := [{ name := "B", status := .ABSENT }],
        unexpected := [] } ["A"] AttendanceStatus.PRESENT).2
      { name := "B", status := AttendanceStatus.ABSENT, originalName := none }
      (by decide)⟩

/-- A session whose match ties identical roster and session names: rejecting
it sends the name to both `absent` and `unexpected`. -/
abbrev dupSession : ProcessingResult :=
  { present := [{ name := "A", status := .PRESENT, originalName := some "A" }]
    absent := []
    unexpected := [] }

/-- Counterexample for claim C4: `rejectMatch` does not preserve bucket
disjointness.  On a disjoint session whose present attendee was matched
under its own roster name (`originalName = name`), rejecting the match puts
`"A"` into `absent` and into `unexpected` simultaneously. -/
theorem bucket_disjointness_cex :
    BucketsOk dupSession
      ∧ rejectMatch cmpConst dupSession 0 = some
          { present := []
            absent := [{ name := "A", status := .ABSENT }]
            unexpected := [{ name := "A", status := .UNEXPECTED }] }
      ∧ ¬ BucketsOk
          { present := []
            absent := [{ name := "A", status := .ABSENT }]
            unexpected := [{ name := "A", status := .UNEXPECTED }] } := by
  refine ⟨by decide, ?_, by decide⟩
  rw [rejectMatch_eq_some cmpConst dupSession 0 (by omega) (by decide)]
  simp [sortFn_singleton]

/-- Core of the amended C4 for `rejectMatch`: erasing position `k` from the
first name list and appending the erased name to the second and a fresh name
to the third keeps the concatenation duplicate-free. -/
theorem nodup_after_reject {N A U : List String} {k : Nat}
    (hk : k < N.length) (hok : (N ++ A ++ U).Nodup) {o : String}
    (ho : o ∉ N ++ A ++ U) :
    (N.eraseIdx k ++ (A ++ [N.get ⟨k, hk⟩]) ++ (U ++ [o])).Nodup := by
  have hok' := hok
  rw [List.nodup_append, List.nodup_append] at hok'
  obtain ⟨⟨hN, hA, hNA⟩, hU, hNAU⟩ := hok'
  have hnmN : N.get ⟨k, hk⟩ ∈ N := List.get_mem N k hk
  have hoN : o ∉ N := fun h => ho (by simp [List.mem_append, h])
  have hoA : o ∉ A := fun h => ho (by simp [List.mem_append, h])
  have hoU : o ∉ U := fun h => ho (by simp [List.mem_append, h])
  rw [List.nodup_iff_count_le_one]
  intro n
  have hcount : List.count n N + (List.count n A + List.count n U) ≤ 1 := by
    have := List.nodup_iff_count_le_one.mp hok n
    simpa [List.count_append] using this
  have hsub : List.count n (N.eraseIdx k) ≤ List.count n N :=
    (List.eraseIdx_sublist N k).count_le n
  simp only [List.count_append]
  by_cases h1 : n = N.get ⟨k, hk⟩
  · have c1 : List.count n (N.eraseIdx k) = 0 := by
      apply List.count_eq_zero_of_not_mem
      rw [h1]
      exact not_mem_eraseIdx_of_nodup hN k hk
    have c2 : List.count n A = 0 :=
      List.count_eq_zero_of_not_mem (fun hmem => hNA (h1 ▸ hnmN) hmem)
    have c3 : List.count n U = 0 :=
      List.count_eq_zero_of_not_mem
        (fun hmem => hNAU (List.mem_append_left A (h1 ▸ hnmN)) hmem)
    have c4 : List.count n [N.get ⟨k, hk⟩] = 1 := by rw [h1]; simp
    have c5 : List.count n [o] = 0 :=
      List.count_eq_zero_of_not_mem
        (by simp only [List.mem_singleton]
            intro hno
            exact hoN (hno ▸ h1 ▸ hnmN))
    omega
  · by_cases h2 : n = o
    · have c1 : List.count n (N.eraseIdx k) = 0 := by
        have : List.count n N = 0 :=
          List.count_eq_zero_of_not_mem (h2 ▸ hoN)
        omega
      have c2 : List.count n A = 0 :=
        List.count_eq_zero_of_not_mem (h2 ▸ hoA)
      have c3 : List.count n U = 0 :=
        List.count_eq_zero_of_not_mem (h2 ▸ hoU)
      have c4 : List.count n [N.get ⟨k, hk⟩] = 0 :=
        List.count_eq_zero_of_not_mem
          (by simp only [List.mem_singleton]
              simpa using h1)
      have c5 : List.count n [o] = 1 := by rw [h2]; simp
      omega
    · have c4 : List.count n [N.get ⟨k, hk⟩] = 0 :=
        List.count_eq_zero_of_not_mem
          (by simp only [List.mem_singleton]
              simpa using h1)
      have c5 : List.count n [o] = 0 :=
        List.count_eq_zero_of_not_mem (by simp [h2])
      omega

/-- Claim C4 amended: ingest and the bulk change preserve the disjointness
invariant (no duplicate inside a bucket, no name in two buckets), and
`rejectMatch` preserves it exactly when the re-inserted observed name
(`originalName`, defaulted to the empty string) does not already occur in
any bucket; without that freshness condition `rejectMatch` can duplicate a
name, and ingest itself establishes nothing for a raw result that is not
already disjoint. -/
theorem bucket_disjointness_amended (cmp : String → String → Ordering) :
    (∀ res, BucketsOk res → BucketsOk (ingest cmp res))
    ∧ (∀ fr sel target, BucketsOk fr →
        BucketsOk (handleBulkStatusChange cmp fr sel target).1)
    ∧ (∀ res (index : Int) (h0 : 0 ≤ index)
        (h1 : index.toNat < res.present.length) res',
        BucketsOk res →
        (res.present.get ⟨index.toNat, h1⟩).originalName.getD ""
          ∉ allNames res →
        rejectMatch cmp res index = some res' → BucketsOk res') := by
  refine ⟨?_, ?_, ?_⟩
  · intro res h
    have hperm : (allNames (ingest cmp res)).Perm (allNames res) := by
      simp only [allNames, ingest]
      exact ((namesOf_sortFn_perm cmp _).append
        (namesOf_sortFn_perm cmp _)).append (namesOf_sortFn_perm cmp _)
    exact hperm.nodup_iff.mpr h
  · intro fr sel target h
    have h1 : (allNames (handleBulkStatusChange cmp fr sel target).1).Perm
        (namesOf ((fr.present ++ fr.absent ++ fr.unexpected).filter
            (fun a => !sel.contains a.name)
          ++ ((fr.present ++ fr.absent ++ fr.unexpected).filter
            (fun a => sel.contains a.name)).map
              (fun m => { m with status := target }))) := by
      simp only [allNames, namesOf, ← List.map_append]
      exact (bulk_all_perm cmp fr sel target).map _
    have h2 : namesOf ((fr.present ++ fr.absent ++ fr.unexpected).filter
          (fun a => !sel.contains a.name)
        ++ ((fr.present ++ fr.absent ++ fr.unexpected).filter
          (fun a => sel.contains a.name)).map
            (fun m => { m with status := target }))
        = namesOf ((fr.present ++ fr.absent ++ fr.unexpected).filter
            (fun a => !sel.contains a.name))
          ++ namesOf ((fr.present ++ fr.absent ++ fr.unexpected).filter
            (fun a => sel.contains a.name)) := by
      simp only [namesOf, List.map_append, List.map_map]
      rfl
    have h3 : (namesOf ((fr.present ++ fr.absent ++ fr.unexpected).filter
          (fun a => !sel.contains a.name))
        ++ namesOf ((fr.present ++ fr.absent ++ fr.unexpected).filter
          (fun a => sel.contains a.name))).Perm (allNames fr) := by
      have hatt : (((fr.present ++ fr.absent ++ fr.unexpected).filter
            (fun a => !sel.contains a.name))
          ++ ((fr.present ++ fr.absent ++ fr.unexpected).filter
            (fun a => sel.contains a.name))).Perm
          (fr.present ++ fr.absent ++ fr.unexpected) :=
        List.perm_append_comm.trans
          (List.filter_append_perm (fun a : Attendee => sel.contains a.name)
            (fr.present ++ fr.absent ++ fr.unexpected))
      have hm := hatt.map (fun a => a.name)
      simpa [allNames, namesOf, List.map_append] using hm
    rw [h2] at h1
    exact ((h1.trans h3).nodup_iff).mpr h
  · intro res index h0 h1 res' hok hfresh hsome
    rw [rejectMatch_eq_some cmp res index h0 h1] at hsome
    obtain rfl := Option.some.inj hsome
    have hk : index.toNat < (namesOf res.present).length := by
      simpa [namesOf] using h1
    have hperm : (allNames
        { present := res.present.eraseIdx index.toNat
          absent := sortFn cmp (res.absent ++
            [{ name := (res.present.get ⟨index.toNat, h1⟩).name,
               status := .ABSENT }])
          unexpected := sortFn cmp (res.unexpected ++
            [{ name := (res.present.get
                  ⟨index.toNat, h1⟩).originalName.getD "",
               status := .UNEXPECTED }]) }).Perm
        ((namesOf res.present).eraseIdx index.toNat
          ++ (namesOf res.absent
            ++ [(namesOf res.present).get ⟨index.toNat, hk⟩])
          ++ (namesOf res.unexpected
            ++ [(res.present.get ⟨index.toNat, h1⟩).originalName.getD ""])) := by
      simp only [allNames]
      refine List.Perm.append (List.Perm.append ?_ ?_) ?_
      · rw [namesOf_eraseIdx]
      · refine (namesOf_sortFn_perm cmp _).trans ?_
        have he : namesOf (res.absent ++
            [{ name := (res.present.get ⟨index.toNat, h1⟩).name,
               status := .ABSENT, originalName := none }])
            = namesOf res.absent
              ++ [(namesOf res.present).get ⟨index.toNat, hk⟩] := by
          simp [namesOf, List.get_eq_getElem, List.getElem_map]
        rw [he]
      · refine (namesOf_sortFn_perm cmp _).trans ?_
        have he : namesOf (res.unexpected ++
            [{ name := (res.present.get
                  ⟨index.toNat, h1⟩).originalName.getD "",
               status := .UNEXPECTED, originalName := none }])
            = namesOf res.unexpected
              ++ [(res.present.get ⟨index.toNat, h1⟩).originalName.getD ""] := by
          simp [namesOf]
        rw [he]
    refine hperm.nodup_iff.mpr ?_
    exact nodup_after_reject hk hok hfresh

/-- A session whose observed name differs from every stored name. -/
abbrev freshRejectSession : ProcessingResult :=
  { present := [{ name := "A", status := .PRESENT, originalName := some "Zoom A" }]
    absent := []
    unexpected := [] }

/-- Witness for the amended C4: rejecting a match whose observed name is
fresh keeps the buckets disjoint. -/
theorem bucket_disjointness_amended_witness :
    BucketsOk freshRejectSession
      ∧ ("Zoom A" ∉ allNames freshRejectSession)
      ∧ BucketsOk
          { present := []
            absent := [{ name := "A", status := .ABSENT }]
            unexpected := [{ name := "Zoom A", status := .UNEXPECTED }] } :=
  ⟨by decide, by decide,
    (bucket_disjointness_amended cmpConst).2.2 freshRejectSession 0
      (by omega) (by decide)
      { present := []
        absent := [{ name := "A", status := .ABSENT }]
        unexpected := [{ name := "Zoom A", status := .UNEXPECTED }] }
      (by decide) (by decide)
      (by rw [rejectMatch_eq_some cmpConst freshRejectSession 0
            (by omega) (by decide)]
          simp [sortFn_singleton])⟩

end UnitedAttendance
